import Mathlib

/-!
Verification development for the pixi-batch-renderer batching and geometry
packing engine.

The definitions below are a shallow embedding of the JavaScript/TypeScript
source:

* `GenConfig`, `GenState`, `put`, `finalize`, and the four texture admission
  functions embed the `BatchGenerator` class (constructor dispatch on
  `enableTextureReduction` and `textureIncrement`, `put`, `finalize`,
  `_putOnlyTexture`, `_putTextureArray`, `_putTextureWithoutReduction`,
  `_putTextureArrayWithoutReduction`).
* `goBatches` embeds the batching loop of `BatchRenderer.flush` (the greedy
  loop that retries a rejected object against a freshly finalized
  accumulator), with an explicit fuel argument standing for the number of
  loop iterations executed.
* `BufferPool.allocateBuffer` / `BufferPool.releaseBuffer` embed the
  `BufferPool` class; `nextPow2` and `Nat.log2` stand for the `@pixi/utils`
  helpers it imports (external dependency, modelled by their documented
  behaviour: round up to the next power of two, floor base-two logarithm).
* `PackerCfg`, `packAttrsStep`, `packVertex`, `packOne`, `packMany` embed the
  behaviour of the packer function emitted by `FunctionCompiler.compile`
  (including the compile-time `skipReverseTransformation` logic), for layouts
  whose attributes use the 4-byte `float32` view, so the composite attribute
  buffer is modelled as a store of float32 cells.

Pipeline states are represented by their `data` word (a `Nat`), since `put`
compares `this._state.data !== state.data`; textures are represented by their
base-texture `uid` (a `Nat`), since the generator keys every structure by
`baseTexture.uid`.
-/

/-- A display-object as seen by the batching stage: its pipeline-state data
word (what `stateFunction` returns for it) and the list of base-texture uids
held by its texture property. -/
structure Obj where
  state : Nat
  tex : List Nat
deriving DecidableEq, Repr

/-- Constructor arguments of `BatchGenerator` that the admission logic reads:
`textureIncrement` (textures per object), `textureLimit` (texture registers
in the GPU) and the `enableTextureReduction` flag. -/
structure GenConfig where
  textureIncrement : Nat
  textureLimit : Nat
  enableTextureReduction : Bool
deriving DecidableEq, Repr

/-- Mutable fields of `BatchGenerator`: `_state` (recorded pipeline state),
`_batchBuffer` (accepted objects), `_textureBuffer` (uid-keyed map, modelled
by its key list), `_textureBufferLength`, `_textureIndexedBuffer` (textures
in unit order) and `_textureIndexMap` (uid to unit index). -/
structure GenState where
  state : Option Nat
  batchBuffer : List Obj
  textureBuffer : List Nat
  textureBufferLength : Nat
  textureIndexedBuffer : List Nat
  textureIndexMap : List (Nat × Nat)
deriving DecidableEq, Repr

/-- The generator right after construction, and right after `finalize`
clears every field. -/
def emptyGenState : GenState :=
  { state := none, batchBuffer := [], textureBuffer := [],
    textureBufferLength := 0, textureIndexedBuffer := [], textureIndexMap := [] }

/-- The body of the insertion performed for a not-yet-buffered texture:
record the uid in `_textureBuffer`, bump `_textureBufferLength`, push the
texture onto `_textureIndexedBuffer` and map its uid to the new index. -/
def insertTexture (g : GenState) (t : Nat) : GenState :=
  { g with
    textureBuffer := g.textureBuffer ++ [t],
    textureBufferLength := g.textureBufferLength + 1,
    textureIndexedBuffer := g.textureIndexedBuffer ++ [t],
    textureIndexMap := g.textureIndexMap ++ [(t, g.textureIndexedBuffer.length)] }

/-- `BatchGenerator._putOnlyTexture`: a texture already in the buffer is
accepted for free; otherwise it is admitted only if one more unit stays
within `_textureLimit`. -/
def putOnlyTexture (cfg : GenConfig) (t : Nat) (g : GenState) : Bool × GenState :=
  if g.textureBuffer.contains t then (true, g)
  else if g.textureBufferLength + 1 ≤ cfg.textureLimit then (true, insertTexture g t)
  else (false, g)

/-- One step of the second loop of `BatchGenerator._putTextureArray`: insert
the texture unless its uid is already buffered. -/
def texInsertStep (g : GenState) (t : Nat) : GenState :=
  if g.textureBuffer.contains t then g else insertTexture g t

/-- `BatchGenerator._putTextureArray`: first count the occurrences whose uid
is not yet buffered (`deltaBufferLength`; a uid repeated inside the array is
counted once per occurrence, as in the source), reject if they overflow the
limit, otherwise insert all not-yet-buffered uids. -/
def putTextureArray (cfg : GenConfig) (ts : List Nat) (g : GenState) : Bool × GenState :=
  if ts.countP (fun t => !(g.textureBuffer.contains t)) + g.textureBufferLength
      > cfg.textureLimit then (false, g)
  else (true, ts.foldl texInsertStep g)

/-- `BatchGenerator._putTextureWithoutReduction`: checks the limit against
`_textureBufferLength` and pushes onto `_textureIndexedBuffer`, but (as in
the source) never increments `_textureBufferLength`. -/
def putTextureWithoutReduction (cfg : GenConfig) (t : Nat) (g : GenState) : Bool × GenState :=
  if g.textureBufferLength + 1 > cfg.textureLimit then (false, g)
  else (true, { g with textureIndexedBuffer := g.textureIndexedBuffer ++ [t] })

/-- `BatchGenerator._putTextureArrayWithoutReduction`: same shape as the
single-texture variant, pushing every texture of the array; again
`_textureBufferLength` is never incremented. -/
def putTextureArrayWithoutReduction (cfg : GenConfig) (ts : List Nat) (g : GenState) :
    Bool × GenState :=
  if g.textureBufferLength + ts.length > cfg.textureLimit then (false, g)
  else (true, { g with textureIndexedBuffer := g.textureIndexedBuffer ++ ts })

/-- The `_putTexture` member chosen by the `BatchGenerator` constructor from
`enableTextureReduction` and `textureIncrement`. -/
def putTexture (cfg : GenConfig) (o : Obj) (g : GenState) : Bool × GenState :=
  if cfg.enableTextureReduction then
    if cfg.textureIncrement = 1 then putOnlyTexture cfg o.tex.headI g
    else putTextureArray cfg o.tex g
  else
    if cfg.textureIncrement = 1 then putTextureWithoutReduction cfg o.tex.headI g
    else putTextureArrayWithoutReduction cfg o.tex g

/-- The tail of `BatchGenerator.put` after the pipeline-state check: the
default `onPut` returns `true`; then the texture step runs when
`_textureIncrement > 0`; on success the object is appended to
`_batchBuffer`. -/
def putCore (cfg : GenConfig) (o : Obj) (g : GenState) : Bool × GenState :=
  if 0 < cfg.textureIncrement then
    match putTexture cfg o g with
    | (true, g2) => (true, { g2 with batchBuffer := g2.batchBuffer ++ [o] })
    | (false, g2) => (false, g2)
  else (true, { g with batchBuffer := g.batchBuffer ++ [o] })

/-- `BatchGenerator.put`: a null `_state` is set to the supplied state (even
when a later check rejects the object); a non-null `_state` whose data word
differs from the supplied one rejects immediately. -/
def put (cfg : GenConfig) (o : Obj) (st : Nat) (g : GenState) : Bool × GenState :=
  match g.state with
  | some s => if s = st then putCore cfg o g else (false, g)
  | none => putCore cfg o { g with state := some st }

/-- A finalized `Batch` record: `geometryOffset` (set by the flush loop),
`batchBuffer` (member objects), `textureBuffer` (textures in unit order),
`uidMap` (uid to unit, `none` when texture reduction is disabled) and the
pipeline state. -/
structure Batch where
  geometryOffset : Nat
  batchBuffer : List Obj
  textureBuffer : List Nat
  uidMap : Option (List (Nat × Nat))
  state : Option Nat
deriving DecidableEq, Repr

/-- `BatchGenerator.finalize` (data copied into the batch record; the
generator itself is reset to `emptyGenState` afterwards, which is exactly
what the source's field-by-field clearing produces). -/
def finalizeBatch (cfg : GenConfig) (off : Nat) (g : GenState) : Batch :=
  { geometryOffset := off,
    batchBuffer := g.batchBuffer,
    textureBuffer := g.textureIndexedBuffer,
    uidMap := if cfg.enableTextureReduction then some g.textureIndexMap else none,
    state := g.state }

/-- The batching loop of `BatchRenderer.flush`: each object is offered to the
generator with its pipeline state; on rejection the accumulator is finalized
into a batch carrying the current `batchStart` as `geometryOffset`,
`batchStart` moves to the rejected object's index, and the same object is
retried against the reset generator. A trailing non-empty accumulator is
finalized after the loop. `fuel` bounds the number of loop iterations;
`none` means the iteration budget was exhausted before the loop finished. -/
def goBatches (cfg : GenConfig) :
    Nat → Nat → Nat → List Obj → GenState → List Batch → Option (List Batch)
  | 0, _, _, _, _, _ => none
  | Nat.succ fuel, idx, batchStart, pending, g, acc =>
    match pending with
    | [] =>
      if g.batchBuffer.isEmpty then some acc
      else some (acc ++ [finalizeBatch cfg batchStart g])
    | o :: rest =>
      let r := put cfg o o.state g
      if r.fst then goBatches cfg fuel (idx + 1) batchStart rest r.snd acc
      else goBatches cfg fuel idx idx (o :: rest) emptyGenState
        (acc ++ [finalizeBatch cfg batchStart r.snd])

/-- Distinct base textures referenced by a list of member objects. -/
def memberDistinctTextures (os : List Obj) : List Nat :=
  ((os.map Obj.tex).flatten).dedup

/-- Next power of two, at least 1 (behaviour of the `@pixi/utils` helper
`nextPow2`, an external dependency of `BufferPool`: its bit-smearing loop
rounds a positive 32-bit value up to the next power of two and maps 0 to 1). -/
def nextPow2 (v : Nat) : Nat :=
  if v ≤ 1 then 1 else 2 ^ (Nat.log2 (v - 1) + 1)

/-- The `BufferPool` class from the repository: free lists of released
buffers keyed by size class. A buffer is represented by its capacity, the
only attribute the pool reads (`buffer.length`). -/
structure BufferPool where
  pools : List (List Nat)
deriving DecidableEq, Repr

/-- Growing `this._bufferPools.length = roundedSizeIndex + 1` (JavaScript
arrays pad with absent entries, which the source then replaces by `[]`). -/
def padPools (l : List (List Nat)) (n : Nat) : List (List Nat) :=
  l ++ List.replicate (n - l.length) []

/-- `BufferPool.allocateBuffer`: round the request to the next power of two,
pop a free buffer of that size class if one exists, otherwise construct a new
buffer of the rounded capacity. The returned `Bool` is `true` when a new
buffer was constructed. -/
def BufferPool.allocateBuffer (p : BufferPool) (size : Nat) : Nat × BufferPool × Bool :=
  let roundedP2 := nextPow2 size
  let roundedSizeIndex := Nat.log2 roundedP2
  let pools := padPools p.pools (roundedSizeIndex + 1)
  let bufferPool := pools.getD roundedSizeIndex []
  match bufferPool.getLast? with
  | some cap => (cap, ⟨pools.set roundedSizeIndex bufferPool.dropLast⟩, false)
  | none => (roundedP2, ⟨pools⟩, true)

/-- `BufferPool.releaseBuffer`: push the buffer onto the free list of the
size class derived from its actual capacity. -/
def BufferPool.releaseBuffer (p : BufferPool) (cap : Nat) : BufferPool :=
  let roundedSizeIndex := Nat.log2 (nextPow2 cap)
  let pools := padPools p.pools (roundedSizeIndex + 1)
  ⟨pools.set roundedSizeIndex ((pools.getD roundedSizeIndex []) ++ [cap])⟩

/-- The `BatchGenerator` construction performed by
`BatchRenderer.contextChange` (`new this._BatchGeneratorClass(texturePerObject,
MAX_TEXTURES, textureProperty, true)`): the constructor records the flag it
was given. -/
def mkBatchGeneratorCfg (textureIncrement textureLimit : Nat) (enable : Bool) : GenConfig :=
  ⟨textureIncrement, textureLimit, enable⟩

/-- The check `contextChange` performs on whatever generator the (possibly
overridden) constructor produced: a generator reporting texture reduction
disabled makes the method throw. -/
def contextChangeCheck (bg : GenConfig) : Except String GenConfig :=
  if bg.enableTextureReduction = false then
    Except.error "PIXI.brend.BatchRenderer does not support batch generation without texture reduction enabled."
  else Except.ok bg

/-- `BatchRenderer.contextChange` with the stock `BatchGenerator` class:
construct with `enableTextureReduction` forced to `true`, then run the
check. -/
def contextChange (texturePerObject maxTextures : Nat) : Except String GenConfig :=
  contextChangeCheck (mkBatchGeneratorCfg texturePerObject maxTextures true)

/-- One attribute redirect as the function compiler reads it: `size` is the
element count per vertex (`none` models the `%notarray%` scalar marker) and
`typeSize` is `ViewableBuffer.sizeOf(redirect.type)` in bytes. -/
structure PRedirect where
  size : Option Nat
  typeSize : Nat
deriving DecidableEq, Repr

instance : Inhabited PRedirect := ⟨⟨none, 0⟩⟩

/-- The configuration a `GeometryPacker` is compiled for: the redirect list,
whether an index property is configured, an optional constant vertex count
(`none` selects the auto-calculation from the first attribute) and
`texturePerObject`. -/
structure PackerCfg where
  redirects : List PRedirect
  hasIndices : Bool
  vertexCountProperty : Option Nat
  texturePerObject : Nat
deriving DecidableEq, Repr

/-- `AttributeRedirect.vertexSizeFor` plus the `texturePerObject * 4` bytes
the `GeometryPacker` constructor adds for texture ids. -/
def vertexSizeOf (cfg : PackerCfg) : Nat :=
  (cfg.redirects.foldr
    (fun r acc => r.typeSize * (match r.size with | some n => n | none => 1) + acc) 0)
  + cfg.texturePerObject * 4

/-- One item offered to the packer: one source array per redirect, and its
index array. Element values are the numbers stored in the float32 cells. -/
structure PItem where
  attrs : List (List Int)
  indices : List Nat
deriving DecidableEq, Repr

/-- Point update of a float32-cell store. -/
def updateCell (f : Nat → Int) (i : Nat) (v : Int) : Nat → Int :=
  fun j => if j = i then v else f j

/-- Point update of the composite index buffer. -/
def updateIdx (f : Nat → Nat) (i : Nat) (v : Nat) : Nat → Nat :=
  fun j => if j = i then v else f j

/-- The unrolled `view[adjustedAIndex++] = __buffer_i[__offset_i++]`
statements: `n` consecutive cell writes from `src` starting at source offset
`off`. Returns the store, the advanced cell cursor and the advanced source
offset. -/
def writeRun (buf : Nat → Int) (adjusted : Nat) (src : List Int) (off : Nat) :
    Nat → (Nat → Int) × Nat × Nat
  | 0 => (buf, adjusted, off)
  | Nat.succ n => writeRun (updateCell buf adjusted (src.getD off 0)) (adjusted + 1) src (off + 1) n

/-- Result of running the emitted per-vertex attribute statements. -/
structure AttrsResult where
  offs : List Nat
  aIndex : Nat
  adjusted : Nat
  buf : Nat → Int
  skip : Bool

/-- The per-vertex attribute statements emitted by `FunctionCompiler.compile`,
one entry per redirect paired with its source array and persistent source
offset. `skip` is the compiler's `skipReverseTransformation` flag: when it is
unset the emitted code first recomputes `adjustedAIndex = aIndex / sizeOf(i)`;
after the writes, a following redirect of a different element size gets
`aIndex = adjustedAIndex * sizeOf(i)` emitted, while a same-size or absent
follower sets the flag instead. -/
def packAttrsStep : List (PRedirect × List Int × Nat) → Bool → Nat → Nat → (Nat → Int) →
    AttrsResult
  | [], skip, aIndex, adjusted, buf =>
    { offs := [], aIndex := aIndex, adjusted := adjusted, buf := buf, skip := skip }
  | (r, src, off) :: rest, skip, aIndex, adjusted, buf =>
    let adjusted0 := if skip then adjusted else aIndex / r.typeSize
    let w := match r.size with
      | some n => writeRun buf adjusted0 src off n
      | none => (updateCell buf adjusted0 src.headI, adjusted0 + 1, off)
    match rest with
    | [] =>
      { offs := [w.2.2], aIndex := aIndex, adjusted := w.2.1, buf := w.1, skip := true }
    | (r2, _, _) :: _ =>
      if r2.typeSize = r.typeSize then
        let res := packAttrsStep rest true aIndex w.2.1 w.1
        { res with offs := w.2.2 :: res.offs }
      else
        let res := packAttrsStep rest skip (w.2.1 * r.typeSize) w.2.1 w.1
        { res with offs := w.2.2 :: res.offs }

/-- Runtime state threaded through the emitted per-vertex loop: the byte
cursor `aIndex`, the cell cursor `adjustedAIndex`, the per-redirect source
offsets and the composite attribute store. -/
structure VtxState where
  aIndex : Nat
  adjusted : Nat
  offs : List Nat
  buf : Nat → Int

/-- One iteration of the emitted vertex loop: the attribute statements, then
the conversion `aIndex = adjustedAIndex * sizeOf(last)` emitted only when the
flag is set and the last element size is not 4, then the texture-id writes
(`float32View[adjustedAIndex++] = textureId[k]` for several textures per
object; for a single texture either `float32View[aIndex] = textureId;
aIndex += 4` when the flag is clear — the byte offset used as a cell index,
as in the source — or `float32View[adjustedAIndex++] = textureId;
aIndex = adjustedAIndex * 4`). -/
def packVertex (cfg : PackerCfg) (srcs : List (List Int)) (texId : List Int)
    (st : VtxState) : VtxState :=
  let ar := packAttrsStep (cfg.redirects.zip (srcs.zip st.offs)) false st.aIndex st.adjusted st.buf
  let lastSize := (cfg.redirects.getLastD default).typeSize
  let aIndex1 := if ar.skip && lastSize != 4 then ar.adjusted * lastSize else ar.aIndex
  let skip1 := if ar.skip && lastSize != 4 then false else ar.skip
  if cfg.texturePerObject > 1 then
    let adjusted2 := if skip1 then ar.adjusted else aIndex1 / 4
    let w := writeRun ar.buf adjusted2 texId 0 cfg.texturePerObject
    { aIndex := w.2.1 * 4, adjusted := w.2.1, offs := ar.offs, buf := w.1 }
  else if cfg.texturePerObject = 1 then
    if !skip1 then
      { aIndex := aIndex1 + 4, adjusted := ar.adjusted, offs := ar.offs,
        buf := updateCell ar.buf aIndex1 texId.headI }
    else
      { aIndex := (ar.adjusted + 1) * 4, adjusted := ar.adjusted + 1, offs := ar.offs,
        buf := updateCell ar.buf ar.adjusted texId.headI }
  else
    { aIndex := aIndex1, adjusted := ar.adjusted, offs := ar.offs, buf := ar.buf }

/-- The emitted `for (let vertexIndex = 0; vertexIndex < vertexCount; ...)`
loop. -/
def packVertices (cfg : PackerCfg) (srcs : List (List Int)) (texId : List Int) :
    Nat → VtxState → VtxState
  | 0, st => st
  | Nat.succ n, st => packVertices cfg srcs texId n (packVertex cfg srcs texId st)

/-- The index-block statements: append each index value offset by
`verticesBefore`, advancing the index cursor. -/
def writeIdxRun (ib : Nat → Nat) (iIndex verticesBefore : Nat) : List Nat → (Nat → Nat)
  | [] => ib
  | x :: xs => writeIdxRun (updateIdx ib iIndex (verticesBefore + x)) (iIndex + 1) verticesBefore xs

/-- The persistent packer state `GeometryPacker` keeps between `pack` calls:
the two composite stores and the `_aIndex` / `_iIndex` cursors. -/
structure PackSt where
  aBuf : Nat → Int
  iBuf : Nat → Nat
  aIndexF : Nat
  iIndexF : Nat

/-- `GeometryPacker.reset`: zeroed stores and cursors (a fresh
`ViewableBuffer` / `Uint16Array` is zero-initialized). -/
def packReset : PackSt :=
  { aBuf := fun _ => 0, iBuf := fun _ => 0, aIndexF := 0, iIndexF := 0 }

/-- One invocation of the compiled packer function on one item
(`GeometryPacker.pack` passes the current `_aIndex` / `_iIndex` as the
`aIndex` / `iIndex` arguments): derive the vertex count, run the vertex loop,
store the final byte cursor into `_aIndex`, and, when an index property is
configured, append the item's indices offset by
`oldAIndex / vertexSize` (the vertices already written before this item). -/
def packOne (cfg : PackerCfg) (st : PackSt) (item : PItem) (texId : List Int) : PackSt :=
  let vertexCount := match cfg.vertexCountProperty with
    | some c => c
    | none => item.attrs.headI.length / ((cfg.redirects.headI).size.getD 0)
  let v0 : VtxState :=
    { aIndex := st.aIndexF, adjusted := 0,
      offs := List.replicate cfg.redirects.length 0, buf := st.aBuf }
  let vEnd := packVertices cfg item.attrs texId vertexCount v0
  let st1 : PackSt := { st with aBuf := vEnd.buf, aIndexF := vEnd.aIndex }
  if cfg.hasIndices then
    { st1 with
      iBuf := writeIdxRun st1.iBuf st.iIndexF (st.aIndexF / vertexSizeOf cfg) item.indices,
      iIndexF := st.iIndexF + item.indices.length }
  else st1

/-- Packing a batch: `reset`, then one `pack` call per member with the
texture id resolved for it. -/
def packMany (cfg : PackerCfg) (items : List (PItem × List Int)) : PackSt :=
  items.foldl (fun st p => packOne cfg st p.1 p.2) packReset

/-- The first `n` cells of the composite float32 store. -/
def floatCells (st : PackSt) (n : Nat) : List Int :=
  (List.range n).map st.aBuf

/-- The valid portion of the composite index buffer (its first `_iIndex`
entries). -/
def indexCells (st : PackSt) (n : Nat) : List Nat :=
  (List.range n).map st.iBuf

/-- Homogeneity of pipeline states over a member list. -/
def HomogList (os : List Obj) : Prop :=
  ∀ o ∈ os, ∀ o2 ∈ os, o.state = o2.state

/-- Reachability invariant of the generator: a null recorded state means no
members yet, and every member carries the recorded pipeline state. -/
def GenInv (g : GenState) : Prop :=
  (g.state = none → g.batchBuffer = []) ∧
  (∀ s, g.state = some s → ∀ o ∈ g.batchBuffer, o.state = s)

/-- Whether an object alone passes the texture step of `put` against a fresh
accumulator (vacuously when `textureIncrement` is 0, in which case the
texture step is skipped). -/
def emptyFits (cfg : GenConfig) (o : Obj) : Bool :=
  cfg.textureIncrement == 0 || (putTexture cfg o emptyGenState).fst

/-- Generator configuration of the spec's greedy-split example: one texture
per object, a budget of two texture units, reduction enabled. -/
def gCfg : GenConfig := ⟨1, 2, true⟩

/-- Objects of the greedy-split example: same pipeline state, textures
A, B, C, A (uids 1, 2, 3, 1). -/
def gObjs : List Obj := [⟨5, [1]⟩, ⟨5, [2]⟩, ⟨5, [3]⟩, ⟨5, [1]⟩]

/-- The two batches the flush loop produces for `gObjs` under `gCfg`. -/
def gBs : List Batch :=
  [⟨0, [⟨5, [1]⟩, ⟨5, [2]⟩], [1, 2], some [(1, 0), (2, 1)], some 5⟩,
   ⟨2, [⟨5, [3]⟩, ⟨5, [1]⟩], [3, 1], some [(3, 0), (1, 1)], some 5⟩]

/-- Packer layout for the index re-basing scenario: one float32 attribute of
two elements per vertex, indices in use, auto vertex count, one texture per
object. -/
def packCfgAB : PackerCfg := ⟨[⟨some 2, 4⟩], true, none, 1⟩

/-- Item A of the index re-basing scenario: 3 vertices, indices `[0, 1, 2]`. -/
def itemA : PItem := ⟨[[10, 11, 12, 13, 14, 15]], [0, 1, 2]⟩

/-- Item B of the index re-basing scenario: 4 vertices, indices
`[0, 1, 2, 3, 0, 2]`. -/
def itemB : PItem := ⟨[[20, 21, 22, 23, 24, 25, 26, 27]], [0, 1, 2, 3, 0, 2]⟩

/-- Packer layout of the packing round-trip scenario: one float32 attribute
of two elements per vertex, no indices, no textures. -/
def noTexCfg : PackerCfg := ⟨[⟨some 2, 4⟩], false, none, 0⟩

/-- The round-trip item: source array `[1, 2, 3, 4]`, two vertices. -/
def noTexItem : PItem := ⟨[[1, 2, 3, 4]], []⟩

theorem texInsertStep_batchBuffer (g : GenState) (t : Nat) :
    (texInsertStep g t).batchBuffer = g.batchBuffer := by
  unfold texInsertStep insertTexture
  split <;> rfl

theorem texInsertStep_state (g : GenState) (t : Nat) :
    (texInsertStep g t).state = g.state := by
  unfold texInsertStep insertTexture
  split <;> rfl

theorem foldl_texInsert_batchBuffer (ts : List Nat) :
    ∀ g : GenState, (ts.foldl texInsertStep g).batchBuffer = g.batchBuffer := by
  induction ts with
  | nil => intro g; rfl
  | cons t ts ih => intro g; rw [List.foldl_cons, ih, texInsertStep_batchBuffer]

theorem foldl_texInsert_state (ts : List Nat) :
    ∀ g : GenState, (ts.foldl texInsertStep g).state = g.state := by
  induction ts with
  | nil => intro g; rfl
  | cons t ts ih => intro g; rw [List.foldl_cons, ih, texInsertStep_state]

theorem putTexture_batchBuffer (cfg : GenConfig) (o : Obj) (g : GenState) :
    (putTexture cfg o g).snd.batchBuffer = g.batchBuffer := by
  unfold putTexture putOnlyTexture putTextureArray putTextureWithoutReduction
    putTextureArrayWithoutReduction
  repeat' split
  all_goals simp [insertTexture, foldl_texInsert_batchBuffer]

theorem putTexture_state (cfg : GenConfig) (o : Obj) (g : GenState) :
    (putTexture cfg o g).snd.state = g.state := by
  unfold putTexture putOnlyTexture putTextureArray putTextureWithoutReduction
    putTextureArrayWithoutReduction
  repeat' split
  all_goals simp [insertTexture, foldl_texInsert_state]

theorem putCore_batchBuffer (cfg : GenConfig) (o : Obj) (g : GenState) :
    (putCore cfg o g).snd.batchBuffer =
      if (putCore cfg o g).fst then g.batchBuffer ++ [o] else g.batchBuffer := by
  unfold putCore
  split
  · rcases h : putTexture cfg o g with ⟨b, g2⟩
    have hb := putTexture_batchBuffer cfg o g
    rw [h] at hb
    simp at hb
    cases b <;> simp [hb]
  · simp

theorem putCore_state (cfg : GenConfig) (o : Obj) (g : GenState) :
    (putCore cfg o g).snd.state = g.state := by
  unfold putCore
  split
  · rcases h : putTexture cfg o g with ⟨b, g2⟩
    have hb := putTexture_state cfg o g
    rw [h] at hb
    simp at hb
    cases b <;> simp [hb]
  · simp

theorem put_batchBuffer (cfg : GenConfig) (o : Obj) (st : Nat) (g : GenState) :
    (put cfg o st g).snd.batchBuffer =
      if (put cfg o st g).fst then g.batchBuffer ++ [o] else g.batchBuffer := by
  rcases hg : g.state with _ | s
  · simp only [put, hg]
    simpa using putCore_batchBuffer cfg o { g with state := some st }
  · by_cases hst : s = st
    · simp only [put, hg, if_pos hst]
      exact putCore_batchBuffer cfg o g
    · simp [put, hg, hst]

theorem put_state (cfg : GenConfig) (o : Obj) (st : Nat) (g : GenState) :
    (put cfg o st g).snd.state = some (g.state.getD st) := by
  rcases hg : g.state with _ | s
  · simp only [put, hg]
    simpa using putCore_state cfg o { g with state := some st }
  · by_cases hst : s = st
    · simp only [put, hg, if_pos hst, putCore_state, Option.getD_some]
    · simp [put, hg, hst]

theorem put_accept_state (cfg : GenConfig) (o : Obj) (st : Nat) (g : GenState) (s : Nat)
    (hg : g.state = some s) (h : (put cfg o st g).fst = true) : st = s := by
  by_cases hst : s = st
  · exact hst.symm
  · rw [put, hg] at h
    simp [hst] at h

theorem goBatches_flatten (cfg : GenConfig) :
    ∀ (fuel idx bst : Nat) (pending : List Obj) (g : GenState) (acc bs : List Batch),
      goBatches cfg fuel idx bst pending g acc = some bs →
      (bs.map Batch.batchBuffer).flatten =
        (acc.map Batch.batchBuffer).flatten ++ g.batchBuffer ++ pending := by
  intro fuel
  induction fuel with
  | zero =>
    intro idx bst pending g acc bs h
    simp [goBatches] at h
  | succ fuel ih =>
    intro idx bst pending g acc bs h
    match pending with
    | [] =>
      simp only [goBatches] at h
      split at h
      · cases h
        have hbe : g.batchBuffer = [] := by
          simpa [List.isEmpty_iff] using ‹g.batchBuffer.isEmpty = true›
        simp [hbe]
      · cases h
        simp [finalizeBatch]
    | o :: rest =>
      simp only [goBatches] at h
      by_cases hr : (put cfg o o.state g).fst = true
      · rw [if_pos hr] at h
        have := ih _ _ _ _ _ _ h
        rw [this, put_batchBuffer, if_pos hr]
        simp
      · rw [if_neg hr] at h
        have := ih _ _ _ _ _ _ h
        rw [this]
        have hbb : (put cfg o o.state g).snd.batchBuffer = g.batchBuffer := by
          rw [put_batchBuffer, if_neg hr]
        simp [finalizeBatch, emptyGenState, hbb]

theorem goBatches_total (cfg : GenConfig) :
    ∀ (pending : List Obj) (fuel idx bst : Nat) (g : GenState) (acc : List Batch),
      2 * pending.length + 1 ≤ fuel →
      (∀ o ∈ pending, (put cfg o o.state emptyGenState).fst = true) →
      (g = emptyGenState ∨ g.batchBuffer ≠ []) →
      (∀ b ∈ acc, b.batchBuffer ≠ []) →
      ∃ bs, goBatches cfg fuel idx bst pending g acc = some bs ∧
        ∀ b ∈ bs, b.batchBuffer ≠ [] := by
  intro pending
  induction pending with
  | nil =>
    intro fuel idx bst g acc hfuel _ _ hacc
    obtain ⟨f, rfl⟩ : ∃ f, fuel = f + 1 := ⟨fuel - 1, by omega⟩
    simp only [goBatches]
    by_cases hb : g.batchBuffer.isEmpty
    · rw [if_pos hb]
      exact ⟨acc, rfl, hacc⟩
    · rw [if_neg hb]
      refine ⟨_, rfl, ?_⟩
      intro b hbmem
      rcases List.mem_append.mp hbmem with hm | hm
      · exact hacc b hm
      · simp only [List.mem_singleton] at hm
        subst hm
        simpa [finalizeBatch, List.isEmpty_iff] using hb
  | cons o rest ih =>
    intro fuel idx bst g acc hfuel hadm hg hacc
    obtain ⟨f, rfl⟩ : ∃ f, fuel = f + 1 := ⟨fuel - 1, by omega⟩
    simp only [goBatches]
    by_cases hr : (put cfg o o.state g).fst = true
    · rw [if_pos hr]
      refine ih f (idx + 1) bst _ acc ?_ (fun x hx => hadm x (by simp [hx])) ?_ hacc
      · simp only [List.length_cons] at hfuel
        omega
      · right
        rw [put_batchBuffer, if_pos hr]
        simp
    · rw [if_neg hr]
      have hgne : g.batchBuffer ≠ [] := by
        rcases hg with rfl | hne
        · exact absurd (hadm o (by simp)) hr
        · exact hne
      obtain ⟨f2, rfl⟩ : ∃ f2, f = f2 + 1 := by
        refine ⟨f - 1, ?_⟩
        simp only [List.length_cons] at hfuel
        omega
      simp only [goBatches]
      have hput : (put cfg o o.state emptyGenState).fst = true := hadm o (by simp)
      rw [if_pos hput]
      refine ih f2 (idx + 1) idx _ _ ?_ (fun x hx => hadm x (by simp [hx])) ?_ ?_
      · simp only [List.length_cons] at hfuel
        omega
      · right
        rw [put_batchBuffer, if_pos hput]
        simp
      · intro b hbmem
        rcases List.mem_append.mp hbmem with hm | hm
        · exact hacc b hm
        · simp only [List.mem_singleton] at hm
          subst hm
          have hbb : (put cfg o o.state g).snd.batchBuffer = g.batchBuffer := by
            rw [put_batchBuffer, if_neg hr]
          simpa [finalizeBatch, hbb] using hgne

theorem homog_of_inv (g : GenState) (hinv : GenInv g) : HomogList g.batchBuffer := by
  rcases hg : g.state with _ | s
  · intro o ho
    rw [hinv.1 hg] at ho
    cases ho
  · intro o ho o2 ho2
    rw [hinv.2 s hg o ho, hinv.2 s hg o2 ho2]

theorem genInv_empty : GenInv emptyGenState :=
  ⟨fun _ => rfl, fun s hs => by simp [emptyGenState] at hs⟩

theorem genInv_put (cfg : GenConfig) (o : Obj) (g : GenState) (hinv : GenInv g)
    (hr : (put cfg o o.state g).fst = true) : GenInv (put cfg o o.state g).snd := by
  constructor
  · intro hnone
    rw [put_state] at hnone
    cases hnone
  · intro s hs o2 ho2
    rw [put_state] at hs
    have hs2 : g.state.getD o.state = s := Option.some.inj hs
    rw [put_batchBuffer, if_pos hr] at ho2
    rcases List.mem_append.mp ho2 with hmem | hmem
    · rcases hg : g.state with _ | s0
      · rw [hinv.1 hg] at hmem
        cases hmem
      · rw [hg, Option.getD_some] at hs2
        rw [hinv.2 s0 hg o2 hmem, hs2]
    · simp only [List.mem_singleton] at hmem
      rw [hmem]
      rcases hg : g.state with _ | s0
      · rw [hg] at hs2
        simpa using hs2
      · rw [hg, Option.getD_some] at hs2
        rw [put_accept_state cfg o o.state g s0 hg hr, hs2]

theorem goBatches_homog (cfg : GenConfig) :
    ∀ (fuel idx bst : Nat) (pending : List Obj) (g : GenState) (acc bs : List Batch),
      GenInv g → (∀ b ∈ acc, HomogList b.batchBuffer) →
      goBatches cfg fuel idx bst pending g acc = some bs →
      ∀ b ∈ bs, HomogList b.batchBuffer := by
  intro fuel
  induction fuel with
  | zero =>
    intro idx bst pending g acc bs _ _ h
    simp [goBatches] at h
  | succ fuel ih =>
    intro idx bst pending g acc bs hinv hacc h
    match pending with
    | [] =>
      simp only [goBatches] at h
      split at h
      · cases h
        exact hacc
      · cases h
        intro b hbmem
        rcases List.mem_append.mp hbmem with hm | hm
        · exact hacc b hm
        · simp only [List.mem_singleton] at hm
          subst hm
          exact homog_of_inv g hinv
    | o :: rest =>
      simp only [goBatches] at h
      by_cases hr : (put cfg o o.state g).fst = true
      · rw [if_pos hr] at h
        exact ih _ _ _ _ _ _ (genInv_put cfg o g hinv hr) hacc h
      · rw [if_neg hr] at h
        refine ih _ _ _ _ _ _ genInv_empty ?_ h
        intro b hbmem
        rcases List.mem_append.mp hbmem with hm | hm
        · exact hacc b hm
        · simp only [List.mem_singleton] at hm
          subst hm
          have hbb : (put cfg o o.state g).snd.batchBuffer = g.batchBuffer := by
            rw [put_batchBuffer, if_neg hr]
          show HomogList (finalizeBatch cfg bst (put cfg o o.state g).snd).batchBuffer
          rw [finalizeBatch]
          simpa [hbb] using homog_of_inv g hinv

/-- C1. Order preservation: whenever the batching loop of `flush` finishes
on a stream of buffered objects, concatenating the member lists
(`batchBuffer`) of the produced batches, in the order the batches were
finalized, yields exactly the original submission order. -/
theorem c1_order_preservation (cfg : GenConfig) (objs : List Obj) (fuel : Nat)
    (bs : List Batch)
    (h : goBatches cfg fuel 0 0 objs emptyGenState [] = some bs) :
    (bs.map Batch.batchBuffer).flatten = objs := by
  have hj := goBatches_flatten cfg fuel 0 0 objs emptyGenState [] bs h
  simpa [emptyGenState] using hj

/-- Witness for C1 at the spec's greedy-split example (budget 2, textures
A, B, C, A). -/
theorem c1_order_preservation_witness :
    goBatches gCfg 9 0 0 gObjs emptyGenState [] = some gBs ∧
    (gBs.map Batch.batchBuffer).flatten = gObjs :=
  ⟨by decide, c1_order_preservation gCfg gObjs 9 gBs (by decide)⟩

/-- C3. Under the precondition that each buffered object is individually
admissible into a fresh accumulator (its `put` against the empty generator
returns `true`), the batching loop of `flush` terminates within
`2 * n + 1` iterations, every buffered object lands in exactly one finalized
batch (the concatenation of the member lists is the buffer itself), and
every finalized batch is non-empty (batches are cut only at `put`
failures). -/
theorem c3_flush_partition (cfg : GenConfig) (objs : List Obj)
    (hadm : ∀ o ∈ objs, (put cfg o o.state emptyGenState).fst = true) :
    ∃ bs, goBatches cfg (2 * objs.length + 1) 0 0 objs emptyGenState [] = some bs ∧
      (bs.map Batch.batchBuffer).flatten = objs ∧
      ∀ b ∈ bs, b.batchBuffer ≠ [] := by
  obtain ⟨bs, h, hne⟩ := goBatches_total cfg objs (2 * objs.length + 1) 0 0 emptyGenState []
    le_rfl hadm (Or.inl rfl) (by simp)
  refine ⟨bs, h, ?_, hne⟩
  have hj := goBatches_flatten cfg (2 * objs.length + 1) 0 0 objs emptyGenState [] bs h
  simpa [emptyGenState] using hj

/-- Witness for C3 at the greedy-split example. -/
theorem c3_flush_partition_witness :
    ∃ bs, goBatches gCfg (2 * gObjs.length + 1) 0 0 gObjs emptyGenState [] = some bs ∧
      (bs.map Batch.batchBuffer).flatten = gObjs ∧
      ∀ b ∈ bs, b.batchBuffer ≠ [] :=
  c3_flush_partition gCfg gObjs (by decide)

/-- C4. Pipeline-state homogeneity: in every batch produced by the batching
loop of `flush`, all member objects share the same pipeline-state data word
(state equality is the exact comparison of `state.data` performed by
`put`). -/
theorem c4_state_homogeneity (cfg : GenConfig) (objs : List Obj) (fuel : Nat)
    (bs : List Batch)
    (h : goBatches cfg fuel 0 0 objs emptyGenState [] = some bs) :
    ∀ b ∈ bs, ∀ o ∈ b.batchBuffer, ∀ o2 ∈ b.batchBuffer, o.state = o2.state :=
  goBatches_homog cfg fuel 0 0 objs emptyGenState [] bs genInv_empty (by simp) h

/-- Witness for C4 at the greedy-split example, instantiated at the first
batch and its two members. -/
theorem c4_state_homogeneity_witness :
    (Obj.mk 5 [1]).state = (Obj.mk 5 [2]).state :=
  c4_state_homogeneity gCfg gObjs 9 gBs (by decide)
    ⟨0, [⟨5, [1]⟩, ⟨5, [2]⟩], [1, 2], some [(1, 0), (2, 1)], some 5⟩ (by decide)
    ⟨5, [1]⟩ (by decide) ⟨5, [2]⟩ (by decide)

theorem putTexture_fst_irrel (cfg : GenConfig) (o : Obj) (g g2 : GenState)
    (hb : g.textureBuffer = g2.textureBuffer)
    (hl : g.textureBufferLength = g2.textureBufferLength) :
    (putTexture cfg o g).fst = (putTexture cfg o g2).fst := by
  simp only [putTexture, putOnlyTexture, putTextureArray, putTextureWithoutReduction,
    putTextureArrayWithoutReduction, hb, hl]
  repeat' split
  all_goals rfl

/-- C7 counterexample: the first `put` on an empty accumulator is not
unconditional. With texture reduction enabled, two textures per object and a
budget of one unit, the very first `put` of an object referencing two
distinct textures returns `false`. -/
theorem c7_counterexample :
    (put ⟨2, 1, true⟩ ⟨0, [1, 2]⟩ 0 emptyGenState).fst = false := by decide

/-- C7 amended: the first call of `put` on an empty accumulator returns
`true` and records the supplied state as the batch's pipeline state,
provided the object's textures pass the texture step against the fresh
accumulator (`emptyFits`; the original claim omitted this proviso). -/
theorem c7_first_put (cfg : GenConfig) (o : Obj) (st : Nat)
    (hfit : emptyFits cfg o = true) :
    (put cfg o st emptyGenState).fst = true ∧
    (put cfg o st emptyGenState).snd.state = some st ∧
    (put cfg o st emptyGenState).snd.batchBuffer = [o] := by
  have hfst : (put cfg o st emptyGenState).fst = true := by
    rw [show put cfg o st emptyGenState
        = putCore cfg o { emptyGenState with state := some st } from rfl]
    unfold putCore
    by_cases hinc : 0 < cfg.textureIncrement
    · rw [if_pos hinc]
      have htex : (putTexture cfg o { emptyGenState with state := some st }).fst = true := by
        rw [putTexture_fst_irrel cfg o { emptyGenState with state := some st }
          emptyGenState rfl rfl]
        unfold emptyFits at hfit
        rcases Bool.or_eq_true_iff.mp hfit with h0 | h1
        · exact absurd (by simpa using h0) (show cfg.textureIncrement ≠ 0 by omega)
        · exact h1
      rcases hpt : putTexture cfg o { emptyGenState with state := some st } with ⟨b, g2⟩
      rw [hpt] at htex
      simp only at htex
      subst htex
      rfl
    · rw [if_neg hinc]
  refine ⟨hfst, ?_, ?_⟩
  · rw [put_state]
    rfl
  · rw [put_batchBuffer, if_pos hfst]
    rfl

/-- Witness for C7: a single-texture object against a fresh accumulator with
a budget of eight units. -/
theorem c7_first_put_witness :
    (put ⟨1, 8, true⟩ ⟨3, [7]⟩ 3 emptyGenState).fst = true ∧
    (put ⟨1, 8, true⟩ ⟨3, [7]⟩ 3 emptyGenState).snd.state = some 3 ∧
    (put ⟨1, 8, true⟩ ⟨3, [7]⟩ 3 emptyGenState).snd.batchBuffer = [⟨3, [7]⟩] :=
  c7_first_put ⟨1, 8, true⟩ ⟨3, [7]⟩ 3 (by decide)

/-- C8. Atomic group admission: with texture reduction enabled and several
textures per object, if the distinct not-yet-buffered textures of the object
plus the current distinct-texture count exceed the budget, `put` returns
`false` and leaves the member list, the distinct-texture set, the
uid-to-unit map, the distinct-texture count and the unit-ordered texture
list unchanged (no partial admission). -/
theorem c8_atomic_rejection (cfg : GenConfig) (o : Obj) (st : Nat) (g : GenState)
    (hred : cfg.enableTextureReduction = true)
    (hinc : 2 ≤ cfg.textureIncrement)
    (hover : cfg.textureLimit <
      (o.tex.filter (fun t => !(g.textureBuffer.contains t))).dedup.length
        + g.textureBufferLength) :
    (put cfg o st g).fst = false ∧
    (put cfg o st g).snd.batchBuffer = g.batchBuffer ∧
    (put cfg o st g).snd.textureBuffer = g.textureBuffer ∧
    (put cfg o st g).snd.textureIndexMap = g.textureIndexMap ∧
    (put cfg o st g).snd.textureBufferLength = g.textureBufferLength ∧
    (put cfg o st g).snd.textureIndexedBuffer = g.textureIndexedBuffer := by
  have key : ∀ g1 : GenState, g1.textureBuffer = g.textureBuffer →
      g1.textureBufferLength = g.textureBufferLength → putCore cfg o g1 = (false, g1) := by
    intro g1 hb hl
    have harr : putTextureArray cfg o.tex g1 = (false, g1) := by
      unfold putTextureArray
      rw [if_pos ?cond]
      case cond =>
        have hmono : (o.tex.filter (fun t => !(g1.textureBuffer.contains t))).dedup.length
            ≤ o.tex.countP (fun t => !(g1.textureBuffer.contains t)) := by
          rw [List.countP_eq_length_filter]
          exact (List.dedup_sublist _).length_le
        rw [hb] at hmono
        rw [hb] at *
        omega
    have hpt : putTexture cfg o g1 = (false, g1) := by
      unfold putTexture
      rw [hred, if_pos rfl, if_neg (by omega)]
      exact harr
    unfold putCore
    rw [if_pos (by omega), hpt]
  rcases hg : g.state with _ | s
  · have h1 : put cfg o st g = (false, { g with state := some st }) := by
      simp only [put, hg]
      exact key { g with state := some st } rfl rfl
    rw [h1]
    simp
  · by_cases hst : s = st
    · have h1 : put cfg o st g = (false, g) := by
        simp only [put, hg, if_pos hst]
        have := key g rfl rfl
        rw [this]
      rw [h1]
      simp
    · have h1 : put cfg o st g = (false, g) := by
        simp [put, hg, hst]
      rw [h1]
      simp

/-- Witness for C8: a fresh accumulator, budget one, object with two
distinct textures. -/
theorem c8_atomic_rejection_witness :
    (put ⟨2, 1, true⟩ ⟨4, [1, 2]⟩ 4 emptyGenState).fst = false ∧
    (put ⟨2, 1, true⟩ ⟨4, [1, 2]⟩ 4 emptyGenState).snd.batchBuffer = [] ∧
    (put ⟨2, 1, true⟩ ⟨4, [1, 2]⟩ 4 emptyGenState).snd.textureBuffer = [] ∧
    (put ⟨2, 1, true⟩ ⟨4, [1, 2]⟩ 4 emptyGenState).snd.textureIndexMap = [] ∧
    (put ⟨2, 1, true⟩ ⟨4, [1, 2]⟩ 4 emptyGenState).snd.textureBufferLength = 0 ∧
    (put ⟨2, 1, true⟩ ⟨4, [1, 2]⟩ 4 emptyGenState).snd.textureIndexedBuffer = [] :=
  c8_atomic_rejection ⟨2, 1, true⟩ ⟨4, [1, 2]⟩ 4 emptyGenState rfl (by decide) (by decide)

/-- C2 failing evaluation. With texture reduction disabled (one texture per
object, budget of one unit), the flush loop accepts two objects with
distinct base textures into a single batch, because
`_putTextureWithoutReduction` never increments `_textureBufferLength`: the
finalized batch's members reference two distinct textures while the budget
is one, violating the texture-budget invariant the claim (and the class's
own documentation) states for both modes. -/
theorem c2_budget_violation :
    goBatches ⟨1, 1, false⟩ 5 0 0 [⟨0, [10]⟩, ⟨0, [20]⟩] emptyGenState []
      = some [⟨0, [⟨0, [10]⟩, ⟨0, [20]⟩], [10, 20], none, some 0⟩] ∧
    memberDistinctTextures [⟨0, [10]⟩, ⟨0, [20]⟩] = [10, 20] ∧
    ¬ (memberDistinctTextures [⟨0, [10]⟩, ⟨0, [20]⟩]).length
        ≤ (⟨1, 1, false⟩ : GenConfig).textureLimit := by decide

/-- C10. `contextChange` always constructs the batch generator with
`enableTextureReduction` forced to `true` and succeeds on the stock
generator class; a generator reporting the flag off makes the check throw;
and under the forced configuration every finalized batch carries the
(non-null) uid-to-unit map. -/
theorem c10_forced_reduction (inc limit : Nat) (g : GenState) (bg : GenConfig) :
    contextChange inc limit = Except.ok (mkBatchGeneratorCfg inc limit true) ∧
    (bg.enableTextureReduction = false →
      contextChangeCheck bg = Except.error
        "PIXI.brend.BatchRenderer does not support batch generation without texture reduction enabled.") ∧
    (finalizeBatch (mkBatchGeneratorCfg inc limit true) 0 g).uidMap
      = some g.textureIndexMap := by
  refine ⟨rfl, ?_, rfl⟩
  intro hb
  simp [contextChangeCheck, hb]

/-- Witness for C10: the error branch fires for a generator that reports
texture reduction disabled. -/
theorem c10_forced_reduction_witness :
    contextChangeCheck ⟨1, 8, false⟩ = Except.error
      "PIXI.brend.BatchRenderer does not support batch generation without texture reduction enabled." :=
  (c10_forced_reduction 1 8 emptyGenState ⟨1, 8, false⟩).2.1 rfl

theorem le_nextPow2 (v : Nat) : v ≤ nextPow2 v := by
  unfold nextPow2
  split
  · omega
  · have h2 : v - 1 < 2 ^ (Nat.log2 (v - 1) + 1) := by
      rw [Nat.log2_eq_log_two]
      exact Nat.lt_pow_succ_log_self (by norm_num) _
    omega

theorem log2_two_pow (k : Nat) : Nat.log2 (2 ^ k) = k := by
  rw [Nat.log2_eq_log_two]
  exact Nat.log_pow (by norm_num) k

theorem nextPow2_pow_log2 (v : Nat) : 2 ^ Nat.log2 (nextPow2 v) = nextPow2 v := by
  unfold nextPow2
  split
  · simp [Nat.log2]
  · rw [log2_two_pow]

theorem replicate_nil_getD (k j : Nat) :
    (List.replicate k ([] : List Nat)).getD j [] = [] := by
  induction k generalizing j with
  | zero => simp
  | succ k ih => cases j <;> simp [List.replicate, ih]

theorem padPools_getD (l : List (List Nat)) (n i : Nat) :
    (padPools l n).getD i [] = l.getD i [] := by
  unfold padPools
  by_cases h : i < l.length
  · rw [List.getD_append _ _ _ _ h]
  · rw [List.getD_append_right _ _ _ _ (by omega), replicate_nil_getD,
      List.getD_eq_default _ _ (by omega)]

/-- C9. Pool allocation: starting from a pool whose free lists only hold
buffers of their own size class (which is what release-after-allocate
produces, every pool-constructed buffer having a power-of-two capacity), an
allocation request returns a buffer of capacity `nextPow2 size ≥ size`, and
whenever the matching size class is non-empty the buffer is reused rather
than newly constructed. -/
theorem c9_pool_allocate (p : BufferPool) (size : Nat)
    (hinv : ∀ i < p.pools.length, ∀ c ∈ p.pools.getD i [], c = 2 ^ i) :
    size ≤ (p.allocateBuffer size).1 ∧
    (p.allocateBuffer size).1 = nextPow2 size ∧
    (p.pools.getD (Nat.log2 (nextPow2 size)) [] ≠ [] →
      (p.allocateBuffer size).2.2 = false) := by
  unfold BufferPool.allocateBuffer
  simp only
  rw [padPools_getD]
  rcases hlast : (p.pools.getD (Nat.log2 (nextPow2 size)) []).getLast? with _ | cap
  · refine ⟨le_nextPow2 size, rfl, ?_⟩
    intro hne
    exact absurd (List.getLast?_eq_none_iff.mp hlast) hne
  · have hmem : cap ∈ p.pools.getD (Nat.log2 (nextPow2 size)) [] := by
      obtain ⟨hne, heq⟩ := List.mem_getLast?_eq_getLast (Option.mem_def.mpr hlast)
      rw [heq]
      exact List.getLast_mem hne
    have hlt : Nat.log2 (nextPow2 size) < p.pools.length := by
      by_contra hge
      rw [List.getD_eq_default _ _ (by omega)] at hmem
      cases hmem
    have hcap : cap = nextPow2 size := by
      rw [hinv _ hlt cap hmem, nextPow2_pow_log2]
    refine ⟨?_, hcap, fun _ => rfl⟩
    rw [hcap]
    exact le_nextPow2 size

/-- Witness for C9: releasing a capacity-64 buffer into an empty pool and
then requesting 50 elements returns the capacity-64 buffer (≥ 50, the
rounded class size) without constructing a new buffer. -/
theorem c9_pool_allocate_witness :
    50 ≤ ((BufferPool.releaseBuffer ⟨[]⟩ 64).allocateBuffer 50).1 ∧
    ((BufferPool.releaseBuffer ⟨[]⟩ 64).allocateBuffer 50).1 = nextPow2 50 ∧
    ((BufferPool.releaseBuffer ⟨[]⟩ 64).allocateBuffer 50).2.2 = false := by
  have hp : BufferPool.releaseBuffer ⟨[]⟩ 64 = ⟨[[], [], [], [], [], [], [64]]⟩ := by
    simp [BufferPool.releaseBuffer, padPools, nextPow2, Nat.log2]
  have h := c9_pool_allocate (BufferPool.releaseBuffer ⟨[]⟩ 64) 50 ?_
  · refine ⟨h.1, h.2.1, h.2.2 ?_⟩
    rw [hp]
    simp [nextPow2, Nat.log2]
  · rw [hp]
    decide

/-- C5 counterexample: packing item A (3 vertices, indices `[0, 1, 2]`) then
item B (4 vertices, indices `[0, 1, 2, 3, 0, 2]`) does not produce the
composite index prefix `[0, 1, 2, 3, 4, 5, 3, 5]` the claim states — that
list drops the re-based image of B's index `3`. -/
theorem c5_counterexample :
    indexCells (packMany packCfgAB [(itemA, [0]), (itemB, [0])])
        (packMany packCfgAB [(itemA, [0]), (itemB, [0])]).iIndexF
      ≠ [0, 1, 2, 3, 4, 5, 3, 5] ∧
    indexCells (packMany packCfgAB [(itemA, [0]), (itemB, [0])]) 8
      ≠ [0, 1, 2, 3, 4, 5, 3, 5] := by decide

/-- C5 amended: the valid prefix of the composite index buffer for the batch
A then B is `[0, 1, 2, 3, 4, 5, 6, 3, 5]` (nine entries): A's indices are
written unchanged and each of B's indices is offset by 3, the count of
vertices written into the composite buffer before B. -/
theorem c5_rebased_indices :
    (packMany packCfgAB [(itemA, [0]), (itemB, [0])]).iIndexF = 9 ∧
    indexCells (packMany packCfgAB [(itemA, [0]), (itemB, [0])]) 9
      = itemA.indices.map (fun i => 0 + i) ++ itemB.indices.map (fun i => 3 + i) ∧
    indexCells (packMany packCfgAB [(itemA, [0]), (itemB, [0])]) 9
      = [0, 1, 2, 3, 4, 5, 6, 3, 5] := by decide

/-- C6 failing evaluation. For a layout of exactly one float32 attribute of
two elements per vertex and no textures, packing the single item
`[1, 2, 3, 4]` leaves the byte cursor `aIndex` stuck at 0 (the emitted
conversion back from the cell cursor is skipped when the last attribute's
element size is 4 and no texture-id write follows), so the second vertex
overwrites the first: the composite float cells read back `[3, 4, 0, 0]`,
not the claimed `[1, 2, 3, 4]`, and `_aIndex` stays 0. -/
theorem c6_cursor_stuck :
    floatCells (packMany noTexCfg [(noTexItem, [])]) 4 = [3, 4, 0, 0] ∧
    floatCells (packMany noTexCfg [(noTexItem, [])]) 4 ≠ [1, 2, 3, 4] ∧
    (packMany noTexCfg [(noTexItem, [])]).aIndexF = 0 := by decide
